import Mathlib

/-!
Verification development for the recipe-management backend
(`recipe-app-api`).  The repository's business logic is the "Recipe
Aggregate Writer" (spec §4.1): CRUD over recipes with owner-scoped
get-or-create semantics for tags and ingredients, owner-scoped querying,
and a user-registration serializer.  The recipe serializers/views and the
core models are not shipped in the source tree (only their tests and URL
declarations are), so those operations are modelled from the spec, as the
doc comments below note; the user serializer is embedded from
`src/app/user/serializers.py`.
-/

namespace RecipeApp

/-- Modelled from the spec: a Tag row has a name and an owner (spec §3);
rows are identified by a numeric primary key as in the backing store. -/
structure Tag where
  id : Nat
  user : Nat
  name : String
deriving DecidableEq

/-- Modelled from the spec: an Ingredient row has the same shape and
invariant pattern as Tag (spec §3). -/
structure Ingredient where
  id : Nat
  user : Nat
  name : String
deriving DecidableEq

/-- Modelled from the spec: a Recipe row holds title, time estimate,
price, description, optional external link, optional image, is owned by
exactly one user, and holds many-to-many relations (here: id lists) to
Tag and Ingredient (spec §3). Price is represented in integer cents. -/
structure Recipe where
  id : Nat
  user : Nat
  title : String
  time_minutes : Nat
  price : Int
  description : String
  link : String
  tagIds : List Nat
  ingredientIds : List Nat
  image : Option String
deriving DecidableEq

/-- Modelled from the spec: the backing relational store, plus the media
file store the image endpoint writes to.  Each table allocates its
primary keys from its own sequence, as the backing relational store does:
`nextTagId`, `nextIngId` and `nextRecipeId` are the next unused keys. -/
structure Store where
  tags : List Tag
  ingredients : List Ingredient
  recipes : List Recipe
  files : List String
  nextTagId : Nat
  nextIngId : Nat
  nextRecipeId : Nat
deriving DecidableEq

/-- Predicate for an owner-scoped tag lookup key (name AND owner, spec §3). -/
def tagMatch (o : Nat) (n : String) (t : Tag) : Bool :=
  t.user == o && t.name == n

/-- Predicate for an owner-scoped ingredient lookup key. -/
def ingMatch (o : Nat) (n : String) (i : Ingredient) : Bool :=
  i.user == o && i.name == n

/-- Number of Tag rows with the given name owned by the given owner. -/
def countTag (o : Nat) (n : String) (s : Store) : Nat :=
  (s.tags.filter (tagMatch o n)).length

/-- Number of Ingredient rows with the given name owned by the given owner. -/
def countIng (o : Nat) (n : String) (s : Store) : Nat :=
  (s.ingredients.filter (ingMatch o n)).length

/-- Modelled from the spec: get-or-create for Tag, scoped by name AND
owner — look up an existing Tag with that exact name owned by the owner;
if absent, create it (spec §4.1 step 2, glossary "Get-or-create"); the
serializer implementing it (`recipe/serializers.py`) is missing from the
source tree.  Returns the id of the canonical row. -/
def getOrCreateTag (o : Nat) (n : String) (s : Store) : Nat × Store :=
  match s.tags.find? (tagMatch o n) with
  | some t => (t.id, s)
  | none =>
      (s.nextTagId,
       { s with tags := s.tags ++ [⟨s.nextTagId, o, n⟩],
                nextTagId := s.nextTagId + 1 })

/-- Modelled from the spec: get-or-create for Ingredient, identical to the
Tag case (spec §4.1 step 3). -/
def getOrCreateIng (o : Nat) (n : String) (s : Store) : Nat × Store :=
  match s.ingredients.find? (ingMatch o n) with
  | some i => (i.id, s)
  | none =>
      (s.nextIngId,
       { s with ingredients := s.ingredients ++ [⟨s.nextIngId, o, n⟩],
                nextIngId := s.nextIngId + 1 })

/-- Modelled from the spec: resolve a batch of tag names for one owner,
one get-or-create per occurrence, threading the store; returns the
(name, resolved id) pair for every occurrence in input order. -/
def resolveTags (o : Nat) (names : List String) (s : Store) :
    List (String × Nat) × Store :=
  match names with
  | [] => ([], s)
  | n :: rest =>
      ((n, (getOrCreateTag o n s).1) ::
         (resolveTags o rest (getOrCreateTag o n s).2).1,
       (resolveTags o rest (getOrCreateTag o n s).2).2)

/-- Modelled from the spec: resolve a batch of ingredient names, as for tags. -/
def resolveIngs (o : Nat) (names : List String) (s : Store) :
    List (String × Nat) × Store :=
  match names with
  | [] => ([], s)
  | n :: rest =>
      ((n, (getOrCreateIng o n s).1) ::
         (resolveIngs o rest (getOrCreateIng o n s).2).1,
       (resolveIngs o rest (getOrCreateIng o n s).2).2)

/-- Id set a list of tag names resolves to against a given store (the
many-to-many link set is a set: duplicates collapse). -/
def resolvedTagIds (o : Nat) (names : List String) (s : Store) : List Nat :=
  ((resolveTags o names s).1.map Prod.snd).dedup

/-- Id set a list of ingredient names resolves to against a given store. -/
def resolvedIngIds (o : Nat) (names : List String) (s : Store) : List Nat :=
  ((resolveIngs o names s).1.map Prod.snd).dedup

/-- Modelled from the spec: the scalar fields of a recipe write payload.
`user` is a client-supplied owner attempt that the writer must never
honour (spec §4.1 step 1: owner is "never client-settable, even if
supplied"). -/
structure RecipeFields where
  title : String
  time_minutes : Nat
  price : Int
  description : String
  link : String
  user : Option Nat
deriving DecidableEq

/-- Modelled from the spec: create(owner, fields, tagNames, ingredientNames)
(spec §4.1): persist scalars with the authenticated owner as the fixed
owner, get-or-create and link each tag name, then each ingredient name,
and return the new recipe's id together with the updated store; the view
and serializer implementing it are missing from the source tree. -/
def createRecipe (o : Nat) (f : RecipeFields) (tagNames ingNames : List String)
    (s : Store) : Nat × Store :=
  let rid := s.nextRecipeId
  let s1 := { s with nextRecipeId := s.nextRecipeId + 1 }
  let s2 := (resolveTags o tagNames s1).2
  let s3 := (resolveIngs o ingNames s2).2
  let r : Recipe :=
    { id := rid, user := o, title := f.title, time_minutes := f.time_minutes,
      price := f.price, description := f.description, link := f.link,
      tagIds := resolvedTagIds o tagNames s1,
      ingredientIds := resolvedIngIds o ingNames s2, image := none }
  (rid, { s3 with recipes := s3.recipes ++ [r] })

/-- Predicate an owner-scoped recipe detail lookup uses: the queryset is
filtered to the authenticated user, so a row is visible only to its owner. -/
def recipeMatch (caller rid : Nat) (r : Recipe) : Bool :=
  r.id == rid && r.user == caller

/-- Owner-scoped recipe lookup (spec glossary: all queries are implicitly
scoped to the owner). -/
def findRecipe (caller rid : Nat) (s : Store) : Option Recipe :=
  s.recipes.find? (recipeMatch caller rid)

/-- Modelled from the spec: a PATCH payload — every field optional
(partial semantics, spec §4.1 update); `user` is an owner-change attempt
that must be silently ignored; `tags`/`ingredients` carry the name lists
when the respective key is present. -/
structure RecipePatch where
  title : Option String
  time_minutes : Option Nat
  price : Option Int
  description : Option String
  link : Option String
  user : Option Nat
  tags : Option (List String)
  ingredients : Option (List String)
deriving DecidableEq

/-- Modelled from the spec: apply the scalar part of a partial payload —
only fields present are changed, absent fields keep their previous value,
and the owner is untouched whatever the payload's `user` says (spec §4.1). -/
def applyScalars (p : RecipePatch) (r : Recipe) : Recipe :=
  { r with
    title := p.title.getD r.title,
    time_minutes := p.time_minutes.getD r.time_minutes,
    price := p.price.getD r.price,
    description := p.description.getD r.description,
    link := p.link.getD r.link }

/-- Rewrite of one recipe row under a partial payload: scalars follow
partial semantics; when a tag (resp. ingredient) id set is supplied the
link set is fully replaced by it. -/
def patchOne (p : RecipePatch) (tagSet ingSet : Option (List Nat)) (r : Recipe) :
    Recipe :=
  match tagSet, ingSet with
  | some ts, some is => { applyScalars p r with tagIds := ts, ingredientIds := is }
  | some ts, none => { applyScalars p r with tagIds := ts }
  | none, some is => { applyScalars p r with ingredientIds := is }
  | none, none => applyScalars p r

/-- Store after resolving a patch's tag names (no tag key: unchanged). -/
def patchTagStore (caller : Nat) (p : RecipePatch) (s : Store) : Store :=
  match p.tags with
  | some names => (resolveTags caller names s).2
  | none => s

/-- Store after additionally resolving a patch's ingredient names. -/
def patchIngStore (caller : Nat) (p : RecipePatch) (s : Store) : Store :=
  match p.ingredients with
  | some names => (resolveIngs caller names (patchTagStore caller p s)).2
  | none => patchTagStore caller p s

/-- Modelled from the spec: update(recipe, partialFields, tagNames?,
ingredientNames?) behind the owner-scoped detail endpoint (spec §4.1,
§7): a recipe of another owner is reported 404 with the store unchanged;
otherwise scalars follow partial semantics, and a present `tags`
(resp. `ingredients`) key fully replaces the link set by the resolved
set — an empty list detaches everything, deleting no row globally.
Returns the HTTP status and the updated store. -/
def patchRecipe (caller rid : Nat) (p : RecipePatch) (s : Store) : Nat × Store :=
  match findRecipe caller rid s with
  | none => (404, s)
  | some _ =>
      (200,
       { patchIngStore caller p s with
         recipes := (patchIngStore caller p s).recipes.map (fun r =>
           if recipeMatch caller rid r then
             patchOne p (p.tags.map (fun names => resolvedTagIds caller names s))
               (p.ingredients.map (fun names =>
                 resolvedIngIds caller names (patchTagStore caller p s))) r
           else r) })

/-- Modelled from the spec: DELETE on the owner-scoped detail endpoint:
404 and no change for a non-owner, 204 and removal for the owner. -/
def deleteRecipe (caller rid : Nat) (s : Store) : Nat × Store :=
  match findRecipe caller rid s with
  | none => (404, s)
  | some _ =>
      (204, { s with recipes := s.recipes.filter (fun r => !(recipeMatch caller rid r)) })

/-- Modelled from the spec: GET on the owner-scoped detail endpoint:
404 for a non-owner (hiding existence), 200 with the row for the owner. -/
def getRecipeDetail (caller rid : Nat) (s : Store) : Nat × Option Recipe :=
  match findRecipe caller rid s with
  | none => (404, none)
  | some r => (200, some r)

/-- Modelled from the spec: parse a comma-separated list of ids from a
query parameter (spec §8: "filtered by a comma-separated set of tag or
ingredient IDs"). -/
def paramsToInts (qs : String) : List Nat :=
  (qs.splitOn ",").filterMap String.toNat?

/-- Whether a recipe is linked to at least one of the given tag ids. -/
def hasAnyTag (ids : List Nat) (r : Recipe) : Bool :=
  r.tagIds.any (fun t => ids.contains t)

/-- Whether a recipe is linked to at least one of the given ingredient ids. -/
def hasAnyIngredient (ids : List Nat) (r : Recipe) : Bool :=
  r.ingredientIds.any (fun i => ids.contains i)

/-- Modelled from the spec: the recipe list endpoint: 401 for an
unauthenticated caller; otherwise the caller's own recipes, narrowed by
the optional comma-separated tag and ingredient id filters to recipes
linked to at least one of the given ids (spec §6, §8). -/
def listRecipes (caller : Option Nat) (tagParam ingParam : Option String)
    (s : Store) : Nat × List Recipe :=
  match caller with
  | none => (401, [])
  | some u =>
      let base := s.recipes.filter (fun r => r.user == u)
      let byTags := match tagParam with
        | some qs => base.filter (hasAnyTag (paramsToInts qs))
        | none => base
      let result := match ingParam with
        | some qs => byTags.filter (hasAnyIngredient (paramsToInts qs))
        | none => byTags
      (200, result)

/-- Modelled from the spec: an image-upload payload is either a valid
image (stored under a path) or content that is not an image. -/
inductive ImagePayload where
  | valid (path : String)
  | invalid (raw : String)
deriving DecidableEq

/-- Modelled from the spec: the image-upload sub-endpoint (spec §6):
owner-scoped recipe lookup (404 otherwise), 400 for a non-image payload
with nothing written, 200 for a valid image with the file stored and the
recipe's image field pointing at it. -/
def uploadImage (caller rid : Nat) (p : ImagePayload) (s : Store) : Nat × Store :=
  match findRecipe caller rid s with
  | none => (404, s)
  | some _ =>
      match p with
      | .invalid _ => (400, s)
      | .valid path =>
          (200, { s with files := s.files ++ [path],
                         recipes := s.recipes.map (fun r =>
                           if recipeMatch caller rid r then { r with image := some path }
                           else r) })

/-- User row in the auth store (email is the login identity,
`src/app/user/serializers.py` fields email, password, name). -/
structure UserRow where
  id : Nat
  email : String
  password : String
  name : String
deriving DecidableEq

/-- Backing store for user rows. -/
structure UserStore where
  users : List UserRow
  nextId : Nat
deriving DecidableEq

/-- Registration payload, the fields UserSerializer declares
(`src/app/user/serializers.py`: email, password, name). -/
structure UserPayload where
  email : String
  password : String
  name : String
deriving DecidableEq

/-- Serialized representation of a user: UserSerializer marks password
`write_only`, so only email and name appear in any response body
(`src/app/user/serializers.py` Meta.extra_kwargs). -/
def userToRepr (u : UserRow) : List (String × String) :=
  [("email", u.email), ("name", u.name)]

/-- Registration endpoint over UserSerializer: validation enforces the
declared password `min_length` of 5 and email uniqueness, failing with
400 and touching nothing; on success the user is stored and the response
body is the write-only-filtered representation
(`src/app/user/serializers.py`, DRF create-view semantics). -/
def createUser (p : UserPayload) (s : UserStore) :
    (Nat × List (String × String)) × UserStore :=
  if p.password.length < 5 then ((400, []), s)
  else if s.users.any (fun u => u.email == p.email) then ((400, []), s)
  else
    let u : UserRow := ⟨s.nextId, p.email, p.password, p.name⟩
    ((201, userToRepr u), { users := s.users ++ [u], nextId := s.nextId + 1 })

/-- Profile read ("me" endpoint): 200 with the write-only-filtered
representation of the authenticated user. -/
def meRead (u : UserRow) : Nat × List (String × String) :=
  (200, userToRepr u)

/-! ### Generic list lemmas -/

lemma find?_append_some {α : Type} (p : α → Bool) :
    ∀ {l : List α} (l' : List α) {x : α},
      l.find? p = some x → (l ++ l').find? p = some x := by
  intro l
  induction l with
  | nil => intro l' x h; simp at h
  | cons a t ih =>
      intro l' x h
      cases hpa : p a with
      | false =>
          rw [List.find?_cons_of_neg _ (by simp [hpa])] at h
          rw [List.cons_append, List.find?_cons_of_neg _ (by simp [hpa])]
          exact ih l' h
      | true =>
          rw [List.find?_cons_of_pos _ hpa] at h
          rw [List.cons_append, List.find?_cons_of_pos _ hpa]
          exact h

lemma find?_map_ite {α : Type} (pred : α → Bool) (g : α → α)
    (hg : ∀ x, pred x = true → pred (g x) = true) :
    ∀ {l : List α} {r : α}, l.find? pred = some r →
      (l.map (fun x => if pred x then g x else x)).find? pred = some (g r) := by
  intro l
  induction l with
  | nil => intro r h; simp at h
  | cons a t ih =>
      intro r h
      cases hpa : pred a with
      | false =>
          rw [List.find?_cons_of_neg _ (by simp [hpa])] at h
          rw [List.map_cons, if_neg (by simp [hpa]),
            List.find?_cons_of_neg _ (by simp [hpa])]
          exact ih h
      | true =>
          rw [List.find?_cons_of_pos _ hpa] at h
          rw [List.map_cons, if_pos hpa, List.find?_cons_of_pos _ (hg a hpa)]
          injection h with h
          rw [h]

/-! ### Equation and store-shape lemmas for get-or-create -/

lemma tagMatch_iff (o : Nat) (n : String) (t : Tag) :
    tagMatch o n t = true ↔ t.user = o ∧ t.name = n := by
  simp [tagMatch]

lemma ingMatch_iff (o : Nat) (n : String) (i : Ingredient) :
    ingMatch o n i = true ↔ i.user = o ∧ i.name = n := by
  simp [ingMatch]

lemma getOrCreateTag_found {o : Nat} {n : String} {s : Store} {t : Tag}
    (h : s.tags.find? (tagMatch o n) = some t) :
    getOrCreateTag o n s = (t.id, s) := by
  unfold getOrCreateTag; rw [h]

lemma getOrCreateTag_missing {o : Nat} {n : String} {s : Store}
    (h : s.tags.find? (tagMatch o n) = none) :
    getOrCreateTag o n s =
      (s.nextTagId,
       { s with tags := s.tags ++ [⟨s.nextTagId, o, n⟩],
                nextTagId := s.nextTagId + 1 }) := by
  unfold getOrCreateTag; rw [h]

lemma getOrCreateIng_found {o : Nat} {n : String} {s : Store} {i : Ingredient}
    (h : s.ingredients.find? (ingMatch o n) = some i) :
    getOrCreateIng o n s = (i.id, s) := by
  unfold getOrCreateIng; rw [h]

lemma getOrCreateIng_missing {o : Nat} {n : String} {s : Store}
    (h : s.ingredients.find? (ingMatch o n) = none) :
    getOrCreateIng o n s =
      (s.nextIngId,
       { s with ingredients := s.ingredients ++ [⟨s.nextIngId, o, n⟩],
                nextIngId := s.nextIngId + 1 }) := by
  unfold getOrCreateIng; rw [h]

lemma getOrCreateTag_tags_append (o : Nat) (n : String) (s : Store) :
    ∃ l, (getOrCreateTag o n s).2.tags = s.tags ++ l := by
  cases h : s.tags.find? (tagMatch o n) with
  | some t => rw [getOrCreateTag_found h]; exact ⟨[], by simp⟩
  | none => rw [getOrCreateTag_missing h]; exact ⟨_, rfl⟩

lemma getOrCreateTag_ingredients (o : Nat) (n : String) (s : Store) :
    (getOrCreateTag o n s).2.ingredients = s.ingredients := by
  cases h : s.tags.find? (tagMatch o n) with
  | some t => rw [getOrCreateTag_found h]
  | none => rw [getOrCreateTag_missing h]

lemma getOrCreateTag_recipes (o : Nat) (n : String) (s : Store) :
    (getOrCreateTag o n s).2.recipes = s.recipes := by
  cases h : s.tags.find? (tagMatch o n) with
  | some t => rw [getOrCreateTag_found h]
  | none => rw [getOrCreateTag_missing h]

lemma getOrCreateTag_files (o : Nat) (n : String) (s : Store) :
    (getOrCreateTag o n s).2.files = s.files := by
  cases h : s.tags.find? (tagMatch o n) with
  | some t => rw [getOrCreateTag_found h]
  | none => rw [getOrCreateTag_missing h]

lemma getOrCreateIng_ings_append (o : Nat) (n : String) (s : Store) :
    ∃ l, (getOrCreateIng o n s).2.ingredients = s.ingredients ++ l := by
  cases h : s.ingredients.find? (ingMatch o n) with
  | some i => rw [getOrCreateIng_found h]; exact ⟨[], by simp⟩
  | none => rw [getOrCreateIng_missing h]; exact ⟨_, rfl⟩

lemma getOrCreateIng_tags (o : Nat) (n : String) (s : Store) :
    (getOrCreateIng o n s).2.tags = s.tags := by
  cases h : s.ingredients.find? (ingMatch o n) with
  | some i => rw [getOrCreateIng_found h]
  | none => rw [getOrCreateIng_missing h]

lemma getOrCreateIng_recipes (o : Nat) (n : String) (s : Store) :
    (getOrCreateIng o n s).2.recipes = s.recipes := by
  cases h : s.ingredients.find? (ingMatch o n) with
  | some i => rw [getOrCreateIng_found h]
  | none => rw [getOrCreateIng_missing h]

lemma getOrCreateIng_files (o : Nat) (n : String) (s : Store) :
    (getOrCreateIng o n s).2.files = s.files := by
  cases h : s.ingredients.find? (ingMatch o n) with
  | some i => rw [getOrCreateIng_found h]
  | none => rw [getOrCreateIng_missing h]

/-! ### Store-shape lemmas for batch resolution -/

lemma resolveTags_tags_append (o : Nat) (names : List String) :
    ∀ s : Store, ∃ l, (resolveTags o names s).2.tags = s.tags ++ l := by
  induction names with
  | nil => intro s; exact ⟨[], by simp [resolveTags]⟩
  | cons n rest ih =>
      intro s
      obtain ⟨l1, h1⟩ := getOrCreateTag_tags_append o n s
      obtain ⟨l2, h2⟩ := ih (getOrCreateTag o n s).2
      exact ⟨l1 ++ l2, by simp [resolveTags, h2, h1]⟩

lemma resolveTags_ingredients (o : Nat) (names : List String) :
    ∀ s : Store, (resolveTags o names s).2.ingredients = s.ingredients := by
  induction names with
  | nil => intro s; simp [resolveTags]
  | cons n rest ih =>
      intro s
      simp [resolveTags, ih, getOrCreateTag_ingredients]

lemma resolveTags_recipes (o : Nat) (names : List String) :
    ∀ s : Store, (resolveTags o names s).2.recipes = s.recipes := by
  induction names with
  | nil => intro s; simp [resolveTags]
  | cons n rest ih =>
      intro s
      simp [resolveTags, ih, getOrCreateTag_recipes]

lemma resolveTags_files (o : Nat) (names : List String) :
    ∀ s : Store, (resolveTags o names s).2.files = s.files := by
  induction names with
  | nil => intro s; simp [resolveTags]
  | cons n rest ih =>
      intro s
      simp [resolveTags, ih, getOrCreateTag_files]

lemma resolveIngs_ings_append (o : Nat) (names : List String) :
    ∀ s : Store, ∃ l, (resolveIngs o names s).2.ingredients = s.ingredients ++ l := by
  induction names with
  | nil => intro s; exact ⟨[], by simp [resolveIngs]⟩
  | cons n rest ih =>
      intro s
      obtain ⟨l1, h1⟩ := getOrCreateIng_ings_append o n s
      obtain ⟨l2, h2⟩ := ih (getOrCreateIng o n s).2
      exact ⟨l1 ++ l2, by simp [resolveIngs, h2, h1]⟩

lemma resolveIngs_tags (o : Nat) (names : List String) :
    ∀ s : Store, (resolveIngs o names s).2.tags = s.tags := by
  induction names with
  | nil => intro s; simp [resolveIngs]
  | cons n rest ih =>
      intro s
      simp [resolveIngs, ih, getOrCreateIng_tags]

lemma resolveIngs_recipes (o : Nat) (names : List String) :
    ∀ s : Store, (resolveIngs o names s).2.recipes = s.recipes := by
  induction names with
  | nil => intro s; simp [resolveIngs]
  | cons n rest ih =>
      intro s
      simp [resolveIngs, ih, getOrCreateIng_recipes]

lemma resolveIngs_files (o : Nat) (names : List String) :
    ∀ s : Store, (resolveIngs o names s).2.files = s.files := by
  induction names with
  | nil => intro s; simp [resolveIngs]
  | cons n rest ih =>
      intro s
      simp [resolveIngs, ih, getOrCreateIng_files]

/-! ### Row-count lemmas: owner-scoped get-or-create never duplicates -/

lemma countTag_eq_zero_iff (o : Nat) (n : String) (s : Store) :
    countTag o n s = 0 ↔ s.tags.find? (tagMatch o n) = none := by
  simp [countTag, List.length_eq_zero, List.filter_eq_nil_iff, List.find?_eq_none]

lemma countIng_eq_zero_iff (o : Nat) (n : String) (s : Store) :
    countIng o n s = 0 ↔ s.ingredients.find? (ingMatch o n) = none := by
  simp [countIng, List.length_eq_zero, List.filter_eq_nil_iff, List.find?_eq_none]

lemma countTag_getOrCreateTag (o : Nat) (n : String) (o' : Nat) (n' : String)
    (s : Store) :
    countTag o n (getOrCreateTag o' n' s).2 =
      countTag o n s + (if countTag o' n' s = 0 ∧ o = o' ∧ n = n' then 1 else 0) := by
  cases hf : s.tags.find? (tagMatch o' n') with
  | some t =>
      have hnz : ¬ countTag o' n' s = 0 := by
        rw [countTag_eq_zero_iff, hf]; simp
      rw [getOrCreateTag_found hf, if_neg (by tauto)]; rfl
  | none =>
      have hz : countTag o' n' s = 0 := (countTag_eq_zero_iff o' n' s).2 hf
      rw [getOrCreateTag_missing hf]
      by_cases heq : o = o' ∧ n = n'
      · obtain ⟨ho, hn⟩ := heq
        subst ho; subst hn
        rw [if_pos ⟨hz, rfl, rfl⟩]
        simp [countTag, List.filter_append, tagMatch]
      · rw [if_neg (by tauto)]
        have hm : tagMatch o n ⟨s.nextTagId, o', n'⟩ = false := by
          rcases not_and_or.1 heq with h | h
          · simp [tagMatch]; intro hc; exact absurd hc.symm h
          · simp [tagMatch]; intro _; intro hc; exact absurd hc.symm h
        simp [countTag, List.filter_append, hm]

lemma countIng_getOrCreateIng (o : Nat) (n : String) (o' : Nat) (n' : String)
    (s : Store) :
    countIng o n (getOrCreateIng o' n' s).2 =
      countIng o n s + (if countIng o' n' s = 0 ∧ o = o' ∧ n = n' then 1 else 0) := by
  cases hf : s.ingredients.find? (ingMatch o' n') with
  | some i =>
      have hnz : ¬ countIng o' n' s = 0 := by
        rw [countIng_eq_zero_iff, hf]; simp
      rw [getOrCreateIng_found hf, if_neg (by tauto)]; rfl
  | none =>
      have hz : countIng o' n' s = 0 := (countIng_eq_zero_iff o' n' s).2 hf
      rw [getOrCreateIng_missing hf]
      by_cases heq : o = o' ∧ n = n'
      · obtain ⟨ho, hn⟩ := heq
        subst ho; subst hn
        rw [if_pos ⟨hz, rfl, rfl⟩]
        simp [countIng, List.filter_append, ingMatch]
      · rw [if_neg (by tauto)]
        have hm : ingMatch o n ⟨s.nextIngId, o', n'⟩ = false := by
          rcases not_and_or.1 heq with h | h
          · simp [ingMatch]; intro hc; exact absurd hc.symm h
          · simp [ingMatch]; intro _; intro hc; exact absurd hc.symm h
        simp [countIng, List.filter_append, hm]

lemma countTag_resolveTags (o : Nat) (n : String) (o' : Nat)
    (names : List String) :
    ∀ s : Store, countTag o n (resolveTags o' names s).2 =
      if countTag o n s = 0 ∧ o = o' ∧ n ∈ names then 1 else countTag o n s := by
  induction names with
  | nil => intro s; simp [resolveTags]
  | cons m rest ih =>
      intro s
      show countTag o n (resolveTags o' rest (getOrCreateTag o' m s).2).2 = _
      rw [ih, countTag_getOrCreateTag]
      by_cases ho : o = o'
      · subst ho
        by_cases hnm : n = m
        · subst hnm
          by_cases hc : countTag o n s = 0
          · simp [hc]
          · simp [hc]
        · by_cases hc : countTag o n s = 0
          · simp [hc, hnm, List.mem_cons]
          · simp [hc, hnm]
      · simp [ho]

lemma countIng_resolveIngs (o : Nat) (n : String) (o' : Nat)
    (names : List String) :
    ∀ s : Store, countIng o n (resolveIngs o' names s).2 =
      if countIng o n s = 0 ∧ o = o' ∧ n ∈ names then 1 else countIng o n s := by
  induction names with
  | nil => intro s; simp [resolveIngs]
  | cons m rest ih =>
      intro s
      show countIng o n (resolveIngs o' rest (getOrCreateIng o' m s).2).2 = _
      rw [ih, countIng_getOrCreateIng]
      by_cases ho : o = o'
      · subst ho
        by_cases hnm : n = m
        · subst hnm
          by_cases hc : countIng o n s = 0
          · simp [hc]
          · simp [hc]
        · by_cases hc : countIng o n s = 0
          · simp [hc, hnm, List.mem_cons]
          · simp [hc, hnm]
      · simp [ho]

lemma countTag_resolveIngs (o : Nat) (n : String) (o' : Nat)
    (names : List String) (s : Store) :
    countTag o n (resolveIngs o' names s).2 = countTag o n s := by
  simp [countTag, resolveIngs_tags]

lemma countIng_resolveTags (o : Nat) (n : String) (o' : Nat)
    (names : List String) (s : Store) :
    countIng o n (resolveTags o' names s).2 = countIng o n s := by
  simp [countIng, resolveTags_ingredients]

lemma countTag_createRecipe (o : Nat) (n : String) (o' : Nat) (f : RecipeFields)
    (tns ins : List String) (s : Store) :
    countTag o n (createRecipe o' f tns ins s).2 =
      if countTag o n s = 0 ∧ o = o' ∧ n ∈ tns then 1 else countTag o n s := by
  show countTag o n
      { (resolveIngs o' ins (resolveTags o' tns { s with nextRecipeId := s.nextRecipeId + 1 }).2).2
        with recipes := _ } = _
  rw [show ∀ (st : Store) (rs : List Recipe),
        countTag o n { st with recipes := rs } = countTag o n st from
      fun _ _ => rfl]
  rw [countTag_resolveIngs, countTag_resolveTags]
  rfl

lemma countIng_createRecipe (o : Nat) (n : String) (o' : Nat) (f : RecipeFields)
    (tns ins : List String) (s : Store) :
    countIng o n (createRecipe o' f tns ins s).2 =
      if countIng o n s = 0 ∧ o = o' ∧ n ∈ ins then 1 else countIng o n s := by
  show countIng o n
      { (resolveIngs o' ins (resolveTags o' tns { s with nextRecipeId := s.nextRecipeId + 1 }).2).2
        with recipes := _ } = _
  rw [show ∀ (st : Store) (rs : List Recipe),
        countIng o n { st with recipes := rs } = countIng o n st from
      fun _ _ => rfl]
  rw [countIng_resolveIngs, countIng_resolveTags]
  rfl

/-! ### Identity-reuse lemmas: every occurrence of a name resolves to the
canonical row -/

lemma getOrCreateTag_find_self (o : Nat) (n : String) (s : Store) :
    ∃ t : Tag, (getOrCreateTag o n s).2.tags.find? (tagMatch o n) = some t ∧
      t.id = (getOrCreateTag o n s).1 := by
  cases hf : s.tags.find? (tagMatch o n) with
  | some t => rw [getOrCreateTag_found hf]; exact ⟨t, hf, rfl⟩
  | none =>
      rw [getOrCreateTag_missing hf]
      refine ⟨⟨s.nextTagId, o, n⟩, ?_, rfl⟩
      show (s.tags ++ [(⟨s.nextTagId, o, n⟩ : Tag)]).find? (tagMatch o n) = _
      rw [List.find?_append, hf]
      simp [tagMatch]

lemma getOrCreateIng_find_self (o : Nat) (n : String) (s : Store) :
    ∃ i : Ingredient, (getOrCreateIng o n s).2.ingredients.find? (ingMatch o n) = some i ∧
      i.id = (getOrCreateIng o n s).1 := by
  cases hf : s.ingredients.find? (ingMatch o n) with
  | some i => rw [getOrCreateIng_found hf]; exact ⟨i, hf, rfl⟩
  | none =>
      rw [getOrCreateIng_missing hf]
      refine ⟨⟨s.nextIngId, o, n⟩, ?_, rfl⟩
      show (s.ingredients ++ [(⟨s.nextIngId, o, n⟩ : Ingredient)]).find? (ingMatch o n) = _
      rw [List.find?_append, hf]
      simp [ingMatch]

lemma findTag_resolveTags (o : Nat) (names : List String) (s : Store)
    (q : Tag → Bool) {t : Tag} (h : s.tags.find? q = some t) :
    (resolveTags o names s).2.tags.find? q = some t := by
  obtain ⟨l, hl⟩ := resolveTags_tags_append o names s
  rw [hl]
  exact find?_append_some q l h

lemma findIng_resolveIngs (o : Nat) (names : List String) (s : Store)
    (q : Ingredient → Bool) {i : Ingredient} (h : s.ingredients.find? q = some i) :
    (resolveIngs o names s).2.ingredients.find? q = some i := by
  obtain ⟨l, hl⟩ := resolveIngs_ings_append o names s
  rw [hl]
  exact find?_append_some q l h

lemma resolveTags_fst (o : Nat) (names : List String) :
    ∀ s : Store, (resolveTags o names s).1.map Prod.fst = names := by
  induction names with
  | nil => intro s; simp [resolveTags]
  | cons n rest ih => intro s; simp [resolveTags, ih]

lemma resolveIngs_fst (o : Nat) (names : List String) :
    ∀ s : Store, (resolveIngs o names s).1.map Prod.fst = names := by
  induction names with
  | nil => intro s; simp [resolveIngs]
  | cons n rest ih => intro s; simp [resolveIngs, ih]

lemma resolveTags_pairs_find (o : Nat) (names : List String) :
    ∀ (s : Store) (pr : String × Nat), pr ∈ (resolveTags o names s).1 →
      ∃ t : Tag, (resolveTags o names s).2.tags.find? (tagMatch o pr.1) = some t ∧
        t.id = pr.2 := by
  induction names with
  | nil => intro s pr h; simp [resolveTags] at h
  | cons n rest ih =>
      intro s pr h
      show ∃ t, (resolveTags o rest (getOrCreateTag o n s).2).2.tags.find?
        (tagMatch o pr.1) = some t ∧ t.id = pr.2
      rcases List.mem_cons.1 h with hhd | htl
      · subst hhd
        obtain ⟨t, ht, hid⟩ := getOrCreateTag_find_self o n s
        exact ⟨t, findTag_resolveTags o rest _ _ ht, hid⟩
      · exact ih (getOrCreateTag o n s).2 pr htl

lemma resolveIngs_pairs_find (o : Nat) (names : List String) :
    ∀ (s : Store) (pr : String × Nat), pr ∈ (resolveIngs o names s).1 →
      ∃ i : Ingredient, (resolveIngs o names s).2.ingredients.find?
        (ingMatch o pr.1) = some i ∧ i.id = pr.2 := by
  induction names with
  | nil => intro s pr h; simp [resolveIngs] at h
  | cons n rest ih =>
      intro s pr h
      show ∃ i, (resolveIngs o rest (getOrCreateIng o n s).2).2.ingredients.find?
        (ingMatch o pr.1) = some i ∧ i.id = pr.2
      rcases List.mem_cons.1 h with hhd | htl
      · subst hhd
        obtain ⟨i, hi, hid⟩ := getOrCreateIng_find_self o n s
        exact ⟨i, findIng_resolveIngs o rest _ _ hi, hid⟩
      · exact ih (getOrCreateIng o n s).2 pr htl

lemma resolveTags_pairs_same_id (o : Nat) (names : List String) (s : Store)
    {pr pr' : String × Nat} (h : pr ∈ (resolveTags o names s).1)
    (h' : pr' ∈ (resolveTags o names s).1) (hn : pr.1 = pr'.1) :
    pr.2 = pr'.2 := by
  obtain ⟨t, ht, hid⟩ := resolveTags_pairs_find o names s pr h
  obtain ⟨t', ht', hid'⟩ := resolveTags_pairs_find o names s pr' h'
  rw [hn] at ht
  rw [ht] at ht'
  injection ht' with ht''
  rw [← hid, ← hid', ht'']

lemma resolveIngs_pairs_same_id (o : Nat) (names : List String) (s : Store)
    {pr pr' : String × Nat} (h : pr ∈ (resolveIngs o names s).1)
    (h' : pr' ∈ (resolveIngs o names s).1) (hn : pr.1 = pr'.1) :
    pr.2 = pr'.2 := by
  obtain ⟨i, hi, hid⟩ := resolveIngs_pairs_find o names s pr h
  obtain ⟨i', hi', hid'⟩ := resolveIngs_pairs_find o names s pr' h'
  rw [hn] at hi
  rw [hi] at hi'
  injection hi' with hi''
  rw [← hid, ← hid', hi'']

lemma resolvedTagIds_spec (o : Nat) (names : List String) (s : Store) {i : Nat}
    (hi : i ∈ resolvedTagIds o names s) :
    ∃ t : Tag, t ∈ (resolveTags o names s).2.tags ∧ t.id = i ∧ t.user = o ∧
      t.name ∈ names := by
  rw [resolvedTagIds, List.mem_dedup] at hi
  obtain ⟨pr, hpr, hsnd⟩ := List.mem_map.1 hi
  obtain ⟨t, ht, hid⟩ := resolveTags_pairs_find o names s pr hpr
  have hmem : t ∈ (resolveTags o names s).2.tags := List.mem_of_find?_eq_some ht
  have hmatch := (tagMatch_iff o pr.1 t).1 (List.find?_some ht)
  refine ⟨t, hmem, by rw [hid, hsnd], hmatch.1, ?_⟩
  rw [hmatch.2, ← resolveTags_fst o names s]
  exact List.mem_map_of_mem Prod.fst hpr

lemma resolvedIngIds_spec (o : Nat) (names : List String) (s : Store) {i : Nat}
    (hi : i ∈ resolvedIngIds o names s) :
    ∃ x : Ingredient, x ∈ (resolveIngs o names s).2.ingredients ∧ x.id = i ∧
      x.user = o ∧ x.name ∈ names := by
  rw [resolvedIngIds, List.mem_dedup] at hi
  obtain ⟨pr, hpr, hsnd⟩ := List.mem_map.1 hi
  obtain ⟨x, hx, hid⟩ := resolveIngs_pairs_find o names s pr hpr
  have hmem : x ∈ (resolveIngs o names s).2.ingredients := List.mem_of_find?_eq_some hx
  have hmatch := (ingMatch_iff o pr.1 x).1 (List.find?_some hx)
  refine ⟨x, hmem, by rw [hid, hsnd], hmatch.1, ?_⟩
  rw [hmatch.2, ← resolveIngs_fst o names s]
  exact List.mem_map_of_mem Prod.fst hpr

/-! ### Field lemmas for the per-row patch function -/

lemma patchOne_id (p : RecipePatch) (tso iso : Option (List Nat)) (r : Recipe) :
    (patchOne p tso iso r).id = r.id := by
  cases tso <;> cases iso <;> rfl

lemma patchOne_user (p : RecipePatch) (tso iso : Option (List Nat)) (r : Recipe) :
    (patchOne p tso iso r).user = r.user := by
  cases tso <;> cases iso <;> rfl

lemma patchOne_title (p : RecipePatch) (tso iso : Option (List Nat)) (r : Recipe) :
    (patchOne p tso iso r).title = p.title.getD r.title := by
  cases tso <;> cases iso <;> rfl

lemma patchOne_time (p : RecipePatch) (tso iso : Option (List Nat)) (r : Recipe) :
    (patchOne p tso iso r).time_minutes = p.time_minutes.getD r.time_minutes := by
  cases tso <;> cases iso <;> rfl

lemma patchOne_price (p : RecipePatch) (tso iso : Option (List Nat)) (r : Recipe) :
    (patchOne p tso iso r).price = p.price.getD r.price := by
  cases tso <;> cases iso <;> rfl

lemma patchOne_description (p : RecipePatch) (tso iso : Option (List Nat))
    (r : Recipe) :
    (patchOne p tso iso r).description = p.description.getD r.description := by
  cases tso <;> cases iso <;> rfl

lemma patchOne_link (p : RecipePatch) (tso iso : Option (List Nat)) (r : Recipe) :
    (patchOne p tso iso r).link = p.link.getD r.link := by
  cases tso <;> cases iso <;> rfl

lemma patchOne_tagIds_some (p : RecipePatch) {tso : Option (List Nat)}
    (iso : Option (List Nat)) (r : Recipe) {ids : List Nat} (h : tso = some ids) :
    (patchOne p tso iso r).tagIds = ids := by
  subst h; cases iso <;> rfl

lemma patchOne_tagIds_none (p : RecipePatch) {tso : Option (List Nat)}
    (iso : Option (List Nat)) (r : Recipe) (h : tso = none) :
    (patchOne p tso iso r).tagIds = r.tagIds := by
  subst h; cases iso <;> rfl

lemma patchOne_ingIds_some (p : RecipePatch) (tso : Option (List Nat))
    {iso : Option (List Nat)} (r : Recipe) {ids : List Nat} (h : iso = some ids) :
    (patchOne p tso iso r).ingredientIds = ids := by
  subst h; cases tso <;> rfl

lemma patchOne_ingIds_none (p : RecipePatch) (tso : Option (List Nat))
    {iso : Option (List Nat)} (r : Recipe) (h : iso = none) :
    (patchOne p tso iso r).ingredientIds = r.ingredientIds := by
  subst h; cases tso <;> rfl

lemma patchOne_keeps_match (caller rid : Nat) (p : RecipePatch)
    (tso iso : Option (List Nat)) (r : Recipe)
    (h : recipeMatch caller rid r = true) :
    recipeMatch caller rid (patchOne p tso iso r) = true := by
  simp only [recipeMatch, patchOne_id, patchOne_user]
  exact h

/-! ### Behaviour of the patch endpoint -/

lemma patchTagStore_recipes (caller : Nat) (p : RecipePatch) (s : Store) :
    (patchTagStore caller p s).recipes = s.recipes := by
  unfold patchTagStore
  cases p.tags <;> simp [resolveTags_recipes]

lemma patchIngStore_recipes (caller : Nat) (p : RecipePatch) (s : Store) :
    (patchIngStore caller p s).recipes = s.recipes := by
  unfold patchIngStore
  cases p.ingredients <;> simp [resolveIngs_recipes, patchTagStore_recipes]

lemma patchTagStore_tags_append (caller : Nat) (p : RecipePatch) (s : Store) :
    ∃ l, (patchTagStore caller p s).tags = s.tags ++ l := by
  unfold patchTagStore
  cases p.tags with
  | none => exact ⟨[], by simp⟩
  | some names => exact resolveTags_tags_append caller names s

lemma patchIngStore_tags_append (caller : Nat) (p : RecipePatch) (s : Store) :
    ∃ l, (patchIngStore caller p s).tags = s.tags ++ l := by
  unfold patchIngStore
  cases p.ingredients with
  | none => exact patchTagStore_tags_append caller p s
  | some names =>
      rw [resolveIngs_tags]
      exact patchTagStore_tags_append caller p s

lemma patchTagStore_ingredients (caller : Nat) (p : RecipePatch) (s : Store) :
    (patchTagStore caller p s).ingredients = s.ingredients := by
  unfold patchTagStore
  cases p.tags <;> simp [resolveTags_ingredients]

lemma getOrCreateTag_nextIngId (o : Nat) (n : String) (s : Store) :
    (getOrCreateTag o n s).2.nextIngId = s.nextIngId := by
  cases h : s.tags.find? (tagMatch o n) with
  | some t => rw [getOrCreateTag_found h]
  | none => rw [getOrCreateTag_missing h]

lemma resolveTags_nextIngId (o : Nat) (names : List String) :
    ∀ s : Store, (resolveTags o names s).2.nextIngId = s.nextIngId := by
  induction names with
  | nil => intro s; simp [resolveTags]
  | cons n rest ih =>
      intro s
      simp [resolveTags, ih, getOrCreateTag_nextIngId]

lemma patchTagStore_nextIngId (caller : Nat) (p : RecipePatch) (s : Store) :
    (patchTagStore caller p s).nextIngId = s.nextIngId := by
  unfold patchTagStore
  cases p.tags <;> simp [resolveTags_nextIngId]

lemma getOrCreateIng_congr (o : Nat) (n : String) (s s' : Store)
    (hi : s.ingredients = s'.ingredients) (hn : s.nextIngId = s'.nextIngId) :
    (getOrCreateIng o n s).1 = (getOrCreateIng o n s').1 ∧
    (getOrCreateIng o n s).2.ingredients = (getOrCreateIng o n s').2.ingredients ∧
    (getOrCreateIng o n s).2.nextIngId = (getOrCreateIng o n s').2.nextIngId := by
  cases hf : s.ingredients.find? (ingMatch o n) with
  | some i =>
      have hf' : s'.ingredients.find? (ingMatch o n) = some i := by
        rw [← hi]; exact hf
      rw [getOrCreateIng_found hf, getOrCreateIng_found hf']
      exact ⟨rfl, hi, hn⟩
  | none =>
      have hf' : s'.ingredients.find? (ingMatch o n) = none := by
        rw [← hi]; exact hf
      rw [getOrCreateIng_missing hf, getOrCreateIng_missing hf']
      refine ⟨hn, ?_, ?_⟩
      · show s.ingredients ++ [⟨s.nextIngId, o, n⟩] =
          s'.ingredients ++ [⟨s'.nextIngId, o, n⟩]
        rw [hi, hn]
      · show s.nextIngId + 1 = s'.nextIngId + 1
        rw [hn]

lemma resolveIngs_congr (o : Nat) (names : List String) :
    ∀ s s' : Store, s.ingredients = s'.ingredients → s.nextIngId = s'.nextIngId →
      (resolveIngs o names s).1 = (resolveIngs o names s').1 ∧
      (resolveIngs o names s).2.ingredients = (resolveIngs o names s').2.ingredients ∧
      (resolveIngs o names s).2.nextIngId = (resolveIngs o names s').2.nextIngId := by
  induction names with
  | nil => intro s s' hi hn; exact ⟨rfl, hi, hn⟩
  | cons m rest ih =>
      intro s s' hi hn
      obtain ⟨h1, h2, h3⟩ := getOrCreateIng_congr o m s s' hi hn
      obtain ⟨h4, h5, h6⟩ := ih (getOrCreateIng o m s).2 (getOrCreateIng o m s').2 h2 h3
      refine ⟨?_, h5, h6⟩
      show (m, (getOrCreateIng o m s).1) ::
          (resolveIngs o rest (getOrCreateIng o m s).2).1 =
        (m, (getOrCreateIng o m s').1) ::
          (resolveIngs o rest (getOrCreateIng o m s').2).1
      rw [h1, h4]

lemma resolvedIngIds_congr (o : Nat) (names : List String) (s s' : Store)
    (hi : s.ingredients = s'.ingredients) (hn : s.nextIngId = s'.nextIngId) :
    resolvedIngIds o names s = resolvedIngIds o names s' := by
  unfold resolvedIngIds
  rw [(resolveIngs_congr o names s s' hi hn).1]

lemma patchIngStore_ings_append (caller : Nat) (p : RecipePatch) (s : Store) :
    ∃ l, (patchIngStore caller p s).ingredients = s.ingredients ++ l := by
  unfold patchIngStore
  cases p.ingredients with
  | none => exact ⟨[], by simp [patchTagStore_ingredients]⟩
  | some names =>
      obtain ⟨l, hl⟩ := resolveIngs_ings_append caller names (patchTagStore caller p s)
      exact ⟨l, by rw [hl, patchTagStore_ingredients]⟩

lemma patchRecipe_missing {caller rid : Nat} (p : RecipePatch) {s : Store}
    (h : findRecipe caller rid s = none) :
    patchRecipe caller rid p s = (404, s) := by
  unfold patchRecipe; rw [h]

lemma patchRecipe_found {caller rid : Nat} (p : RecipePatch) {s : Store}
    {r : Recipe} (h : findRecipe caller rid s = some r) :
    (patchRecipe caller rid p s).1 = 200 ∧
    findRecipe caller rid (patchRecipe caller rid p s).2 =
      some (patchOne p (p.tags.map (fun names => resolvedTagIds caller names s))
        (p.ingredients.map (fun names =>
          resolvedIngIds caller names (patchTagStore caller p s))) r) := by
  constructor
  · unfold patchRecipe; rw [h]
  · unfold patchRecipe; rw [h]
    show ((patchIngStore caller p s).recipes.map _).find? (recipeMatch caller rid) = _
    rw [patchIngStore_recipes]
    exact find?_map_ite (recipeMatch caller rid) _
      (fun x hx => patchOne_keeps_match caller rid p _ _ x hx) h

lemma patchRecipe_tags_kept {caller rid : Nat} (p : RecipePatch) (s : Store) :
    ∀ t ∈ s.tags, t ∈ (patchRecipe caller rid p s).2.tags := by
  intro t ht
  cases hf : findRecipe caller rid s with
  | none => rw [patchRecipe_missing p hf]; exact ht
  | some r =>
      unfold patchRecipe
      rw [hf]
      show t ∈ (patchIngStore caller p s).tags
      obtain ⟨l, hl⟩ := patchIngStore_tags_append caller p s
      rw [hl]
      exact List.mem_append_left l ht

lemma patchRecipe_ings_kept {caller rid : Nat} (p : RecipePatch) (s : Store) :
    ∀ i ∈ s.ingredients, i ∈ (patchRecipe caller rid p s).2.ingredients := by
  intro i hi
  cases hf : findRecipe caller rid s with
  | none => rw [patchRecipe_missing p hf]; exact hi
  | some r =>
      unfold patchRecipe
      rw [hf]
      show i ∈ (patchIngStore caller p s).ingredients
      obtain ⟨l, hl⟩ := patchIngStore_ings_append caller p s
      rw [hl]
      exact List.mem_append_left l hi

/-! ### Behaviour of recipe creation -/

/-- Recipe row the create operation appends to the store. -/
def createdRow (o : Nat) (f : RecipeFields) (tagNames ingNames : List String)
    (s : Store) : Recipe :=
  { id := s.nextRecipeId, user := o, title := f.title, time_minutes := f.time_minutes,
    price := f.price, description := f.description, link := f.link,
    tagIds := resolvedTagIds o tagNames { s with nextRecipeId := s.nextRecipeId + 1 },
    ingredientIds := resolvedIngIds o ingNames
      (resolveTags o tagNames { s with nextRecipeId := s.nextRecipeId + 1 }).2,
    image := none }

lemma createRecipe_fst (o : Nat) (f : RecipeFields) (tns ins : List String)
    (s : Store) : (createRecipe o f tns ins s).1 = s.nextRecipeId := rfl

lemma createRecipe_recipes (o : Nat) (f : RecipeFields) (tns ins : List String)
    (s : Store) :
    (createRecipe o f tns ins s).2.recipes = s.recipes ++ [createdRow o f tns ins s] := by
  show (resolveIngs o ins
      (resolveTags o tns { s with nextRecipeId := s.nextRecipeId + 1 }).2).2.recipes ++
      [createdRow o f tns ins s] = _
  rw [resolveIngs_recipes, resolveTags_recipes]

lemma resolvedTagIds_mem_of_found (o : Nat) (names : List String) (s : Store)
    {n : String} {t : Tag} (hf : s.tags.find? (tagMatch o n) = some t)
    (hn : n ∈ names) : t.id ∈ resolvedTagIds o names s := by
  have hn' : n ∈ (resolveTags o names s).1.map Prod.fst := by
    rw [resolveTags_fst]; exact hn
  obtain ⟨pr, hpr, hfst⟩ := List.mem_map.1 hn'
  obtain ⟨t', ht', hid⟩ := resolveTags_pairs_find o names s pr hpr
  have hstable : (resolveTags o names s).2.tags.find? (tagMatch o pr.1) = some t := by
    rw [hfst]
    exact findTag_resolveTags o names s _ hf
  rw [hstable] at ht'
  injection ht' with ht''
  rw [resolvedTagIds, List.mem_dedup]
  have : t.id = pr.2 := by rw [ht'', hid]
  rw [this]
  exact List.mem_map_of_mem Prod.snd hpr

lemma resolvedIngIds_mem_of_found (o : Nat) (names : List String) (s : Store)
    {n : String} {i : Ingredient} (hf : s.ingredients.find? (ingMatch o n) = some i)
    (hn : n ∈ names) : i.id ∈ resolvedIngIds o names s := by
  have hn' : n ∈ (resolveIngs o names s).1.map Prod.fst := by
    rw [resolveIngs_fst]; exact hn
  obtain ⟨pr, hpr, hfst⟩ := List.mem_map.1 hn'
  obtain ⟨i', hi', hid⟩ := resolveIngs_pairs_find o names s pr hpr
  have hstable : (resolveIngs o names s).2.ingredients.find? (ingMatch o pr.1) = some i := by
    rw [hfst]
    exact findIng_resolveIngs o names s _ hf
  rw [hstable] at hi'
  injection hi' with hi''
  rw [resolvedIngIds, List.mem_dedup]
  have : i.id = pr.2 := by rw [hi'', hid]
  rw [this]
  exact List.mem_map_of_mem Prod.snd hpr

/-! ### Concrete sample data used by the witnesses -/

/-- Sample scalar payload. -/
def sampleFields : RecipeFields := ⟨"t", 1, 2, "d", "l", none⟩

/-- Sample store holding one tag and one ingredient named "a" for owner 0. -/
def sampleStore : Store := ⟨[⟨1, 0, "a"⟩], [⟨2, 0, "a"⟩], [], [], 3, 3, 3⟩

/-- Empty store. -/
def emptyStore : Store := ⟨[], [], [], [], 0, 0, 0⟩

/-! ### The claims -/

/-- Claim C1: for every owner and every tag or ingredient name, if a row
with that name owned by that owner already exists when a recipe is created
with that name in its tags/ingredients list, the create operation links
the existing row (same identity) to the new recipe and creates no new row;
consequently creating a recipe with the same tag name twice for the same
owner never yields more than one Tag row with that name for that owner. -/
theorem create_reuses_existing_rows (o : Nat) (f : RecipeFields)
    (tns ins : List String) (n : String) :
    (∀ (s : Store) (t : Tag), s.tags.find? (tagMatch o n) = some t → n ∈ tns →
       countTag o n (createRecipe o f tns ins s).2 = countTag o n s ∧
       ∃ r ∈ (createRecipe o f tns ins s).2.recipes,
         r.id = (createRecipe o f tns ins s).1 ∧ t.id ∈ r.tagIds) ∧
    (∀ (s : Store) (i : Ingredient),
       s.ingredients.find? (ingMatch o n) = some i → n ∈ ins →
       countIng o n (createRecipe o f tns ins s).2 = countIng o n s ∧
       ∃ r ∈ (createRecipe o f tns ins s).2.recipes,
         r.id = (createRecipe o f tns ins s).1 ∧ i.id ∈ r.ingredientIds) ∧
    (∀ s : Store, countTag o n s = 0 → n ∈ tns →
       countTag o n (createRecipe o f tns ins (createRecipe o f tns ins s).2).2 = 1) := by
  refine ⟨?_, ?_, ?_⟩
  · intro s t hf hn
    have hnz : ¬ countTag o n s = 0 := by
      rw [countTag_eq_zero_iff, hf]; simp
    constructor
    · rw [countTag_createRecipe, if_neg (by tauto)]
    · refine ⟨createdRow o f tns ins s, ?_, rfl, ?_⟩
      · rw [createRecipe_recipes]
        exact List.mem_append_right _ (List.mem_singleton.2 rfl)
      · exact resolvedTagIds_mem_of_found o tns { s with nextRecipeId := s.nextRecipeId + 1 } hf hn
  · intro s i hf hn
    have hnz : ¬ countIng o n s = 0 := by
      rw [countIng_eq_zero_iff, hf]; simp
    constructor
    · rw [countIng_createRecipe, if_neg (by tauto)]
    · refine ⟨createdRow o f tns ins s, ?_, rfl, ?_⟩
      · rw [createRecipe_recipes]
        exact List.mem_append_right _ (List.mem_singleton.2 rfl)
      · refine resolvedIngIds_mem_of_found o ins
          (resolveTags o tns { s with nextRecipeId := s.nextRecipeId + 1 }).2 ?_ hn
        rw [resolveTags_ingredients]
        exact hf
  · intro s h0 hn
    have h1 : countTag o n (createRecipe o f tns ins s).2 = 1 := by
      rw [countTag_createRecipe, if_pos ⟨h0, rfl, hn⟩]
    rw [countTag_createRecipe, if_neg (by rw [h1]; tauto), h1]

/-- Witness for C1 at owner 0, name "a", payload lists ["a"], the sample
store for reuse and the empty store for the double-create run. -/
theorem create_reuses_existing_rows_witness :
    (countTag 0 "a" (createRecipe 0 sampleFields ["a"] ["a"] sampleStore).2 =
       countTag 0 "a" sampleStore ∧
     ∃ r ∈ (createRecipe 0 sampleFields ["a"] ["a"] sampleStore).2.recipes,
       r.id = (createRecipe 0 sampleFields ["a"] ["a"] sampleStore).1 ∧
       (1 : Nat) ∈ r.tagIds) ∧
    (countIng 0 "a" (createRecipe 0 sampleFields ["a"] ["a"] sampleStore).2 =
       countIng 0 "a" sampleStore ∧
     ∃ r ∈ (createRecipe 0 sampleFields ["a"] ["a"] sampleStore).2.recipes,
       r.id = (createRecipe 0 sampleFields ["a"] ["a"] sampleStore).1 ∧
       (2 : Nat) ∈ r.ingredientIds) ∧
    countTag 0 "a" (createRecipe 0 sampleFields ["a"] ["a"]
      (createRecipe 0 sampleFields ["a"] ["a"] emptyStore).2).2 = 1 := by
  have h := create_reuses_existing_rows 0 sampleFields ["a"] ["a"] "a"
  exact ⟨h.1 sampleStore ⟨1, 0, "a"⟩ (by decide) (by decide),
         h.2.1 sampleStore ⟨2, 0, "a"⟩ (by decide) (by decide),
         h.2.2 emptyStore (by decide) (by decide)⟩

/-- Sample store with one recipe (id 7, owner 0) linked to tag 5 and
ingredient 6, used by the update witnesses. -/
def linkedStore : Store :=
  ⟨[⟨5, 0, "old"⟩], [⟨6, 0, "oldi"⟩],
   [⟨7, 0, "t", 1, 2, "d", "l", [5], [6], none⟩], [], 8, 8, 8⟩

/-- Patch payload carrying both the tags and the ingredients key, each
with an empty list. -/
def bothKeysPatch : RecipePatch :=
  ⟨none, none, none, none, none, none, some [], some []⟩

/-- Claim C2: for every recipe update whose payload contains the tags
(resp. ingredients) key, the recipe's linked tag (resp. ingredient) set
after the update equals exactly the set resolved from the supplied names:
previously linked rows not named in the payload are detached, an empty
list detaches all of them, and the detached Tag/Ingredient rows continue
to exist in the store after the update. -/
theorem update_replaces_link_sets (caller rid : Nat) (names : List String) :
    (∀ (p : RecipePatch) (s : Store) (r : Recipe),
       findRecipe caller rid s = some r → p.tags = some names →
       ∃ r', findRecipe caller rid (patchRecipe caller rid p s).2 = some r' ∧
         r'.tagIds = resolvedTagIds caller names s ∧
         (names = [] → r'.tagIds = []) ∧
         (∀ i ∈ r'.tagIds, ∃ t ∈ (patchRecipe caller rid p s).2.tags,
            t.id = i ∧ t.user = caller ∧ t.name ∈ names) ∧
         (∀ t ∈ s.tags, t ∈ (patchRecipe caller rid p s).2.tags)) ∧
    (∀ (p : RecipePatch) (s : Store) (r : Recipe),
       findRecipe caller rid s = some r → p.ingredients = some names →
       ∃ r', findRecipe caller rid (patchRecipe caller rid p s).2 = some r' ∧
         r'.ingredientIds = resolvedIngIds caller names s ∧
         (names = [] → r'.ingredientIds = []) ∧
         (∀ i ∈ r'.ingredientIds, ∃ x ∈ (patchRecipe caller rid p s).2.ingredients,
            x.id = i ∧ x.user = caller ∧ x.name ∈ names) ∧
         (∀ x ∈ s.ingredients, x ∈ (patchRecipe caller rid p s).2.ingredients)) := by
  constructor
  · intro p s r hr hp
    obtain ⟨h200, hfind⟩ := patchRecipe_found p hr
    have hts : p.tags.map (fun ns => resolvedTagIds caller ns s) =
        some (resolvedTagIds caller names s) := by rw [hp]; rfl
    have htagIds : (patchOne p (p.tags.map (fun ns => resolvedTagIds caller ns s))
        (p.ingredients.map (fun ns =>
          resolvedIngIds caller ns (patchTagStore caller p s))) r).tagIds =
        resolvedTagIds caller names s := patchOne_tagIds_some p _ r hts
    have hstoretags : (patchRecipe caller rid p s).2.tags =
        (resolveTags caller names s).2.tags := by
      unfold patchRecipe
      rw [hr]
      show (patchIngStore caller p s).tags = _
      unfold patchIngStore
      cases hpi : p.ingredients with
      | none => unfold patchTagStore; rw [hp]
      | some ns2 => rw [resolveIngs_tags]; unfold patchTagStore; rw [hp]
    refine ⟨_, hfind, htagIds, ?_, ?_, patchRecipe_tags_kept p s⟩
    · intro h
      rw [htagIds, h]
      simp [resolvedTagIds, resolveTags]
    · intro i hi
      rw [htagIds] at hi
      obtain ⟨t, htmem, hid, huser, hname⟩ := resolvedTagIds_spec caller names s hi
      exact ⟨t, by rw [hstoretags]; exact htmem, hid, huser, hname⟩
  · intro p s r hr hpi
    obtain ⟨h200, hfind⟩ := patchRecipe_found p hr
    have hcong := resolveIngs_congr caller names (patchTagStore caller p s) s
      (patchTagStore_ingredients caller p s) (patchTagStore_nextIngId caller p s)
    have hresolved : resolvedIngIds caller names (patchTagStore caller p s) =
        resolvedIngIds caller names s :=
      resolvedIngIds_congr caller names _ s
        (patchTagStore_ingredients caller p s) (patchTagStore_nextIngId caller p s)
    have his : p.ingredients.map (fun ns =>
        resolvedIngIds caller ns (patchTagStore caller p s)) =
        some (resolvedIngIds caller names s) := by
      rw [hpi]
      show some (resolvedIngIds caller names (patchTagStore caller p s)) = _
      rw [hresolved]
    have hingIds : (patchOne p (p.tags.map (fun ns => resolvedTagIds caller ns s))
        (p.ingredients.map (fun ns =>
          resolvedIngIds caller ns (patchTagStore caller p s))) r).ingredientIds =
        resolvedIngIds caller names s := patchOne_ingIds_some p _ r his
    have hstoreings : (patchRecipe caller rid p s).2.ingredients =
        (resolveIngs caller names s).2.ingredients := by
      unfold patchRecipe
      rw [hr]
      show (patchIngStore caller p s).ingredients = _
      unfold patchIngStore
      rw [hpi]
      exact hcong.2.1
    refine ⟨_, hfind, hingIds, ?_, ?_, patchRecipe_ings_kept p s⟩
    · intro h
      rw [hingIds, h]
      simp [resolvedIngIds, resolveIngs]
    · intro i hi
      rw [hingIds] at hi
      obtain ⟨x, hxmem, hid, huser, hname⟩ := resolvedIngIds_spec caller names s hi
      exact ⟨x, by rw [hstoreings]; exact hxmem, hid, huser, hname⟩

/-- Witness for C2: patching recipe 7 of the linked sample store with a
payload carrying both keys (empty tag list and empty ingredient list)
detaches every tag and every ingredient while the rows survive. -/
theorem update_replaces_link_sets_witness :
    (∃ r', findRecipe 0 7 (patchRecipe 0 7 bothKeysPatch linkedStore).2 = some r' ∧
       r'.tagIds = resolvedTagIds 0 [] linkedStore ∧
       (([] : List String) = [] → r'.tagIds = []) ∧
       (∀ i ∈ r'.tagIds, ∃ t ∈ (patchRecipe 0 7 bothKeysPatch linkedStore).2.tags,
          t.id = i ∧ t.user = 0 ∧ t.name ∈ ([] : List String)) ∧
       (∀ t ∈ linkedStore.tags,
          t ∈ (patchRecipe 0 7 bothKeysPatch linkedStore).2.tags)) ∧
    (∃ r', findRecipe 0 7 (patchRecipe 0 7 bothKeysPatch linkedStore).2 = some r' ∧
       r'.ingredientIds = resolvedIngIds 0 [] linkedStore ∧
       (([] : List String) = [] → r'.ingredientIds = []) ∧
       (∀ i ∈ r'.ingredientIds,
          ∃ x ∈ (patchRecipe 0 7 bothKeysPatch linkedStore).2.ingredients,
            x.id = i ∧ x.user = 0 ∧ x.name ∈ ([] : List String)) ∧
       (∀ x ∈ linkedStore.ingredients,
          x ∈ (patchRecipe 0 7 bothKeysPatch linkedStore).2.ingredients)) := by
  have h := update_replaces_link_sets 0 7 []
  exact ⟨h.1 bothKeysPatch linkedStore ⟨7, 0, "t", 1, 2, "d", "l", [5], [6], none⟩
           (by decide) rfl,
         h.2 bothKeysPatch linkedStore ⟨7, 0, "t", 1, 2, "d", "l", [5], [6], none⟩
           (by decide) rfl⟩

/-- Claim C3: for every input list of tag or ingredient names given to a
single resolution batch, each distinct (name, owner) pair is resolved at
most once: duplicate names within the same list do not create duplicate
rows, and the one resolved row is reused for every occurrence in the
batch (equal names get equal resolved ids). -/
theorem batch_resolves_names_once (o : Nat) (names : List String) (s : Store)
    (n : String) :
    (∀ pr ∈ (resolveTags o names s).1, ∀ pr' ∈ (resolveTags o names s).1,
       pr.1 = pr'.1 → pr.2 = pr'.2) ∧
    (countTag o n s = 0 → n ∈ names → countTag o n (resolveTags o names s).2 = 1) ∧
    (∀ pr ∈ (resolveIngs o names s).1, ∀ pr' ∈ (resolveIngs o names s).1,
       pr.1 = pr'.1 → pr.2 = pr'.2) ∧
    (countIng o n s = 0 → n ∈ names → countIng o n (resolveIngs o names s).2 = 1) := by
  refine ⟨?_, ?_, ?_, ?_⟩
  · intro pr hpr pr' hpr' hn
    exact resolveTags_pairs_same_id o names s hpr hpr' hn
  · intro h0 hn
    rw [countTag_resolveTags, if_pos ⟨h0, rfl, hn⟩]
  · intro pr hpr pr' hpr' hn
    exact resolveIngs_pairs_same_id o names s hpr hpr' hn
  · intro h0 hn
    rw [countIng_resolveIngs, if_pos ⟨h0, rfl, hn⟩]

/-- Witness for C3 at the duplicate batch ["a", "a"] over the empty store. -/
theorem batch_resolves_names_once_witness :
    (("a", (0 : Nat)).2 = ("a", (0 : Nat)).2) ∧
    countTag 0 "a" (resolveTags 0 ["a", "a"] emptyStore).2 = 1 ∧
    countIng 0 "a" (resolveIngs 0 ["a", "a"] emptyStore).2 = 1 := by
  have h := batch_resolves_names_once 0 ["a", "a"] emptyStore "a"
  exact ⟨h.1 ("a", 0) (by decide) ("a", 0) (by decide) rfl,
         h.2.1 (by decide) (by decide),
         h.2.2.2 (by decide) (by decide)⟩

/-- Claim C4: for every partial update (PATCH) of a recipe, only the
fields present in the payload are changed and every absent field keeps
its previous value; in particular patching only the title leaves link,
price, and description unchanged. -/
theorem partial_update_touches_only_present_fields (caller rid : Nat)
    (p : RecipePatch) (s : Store) (r : Recipe)
    (hr : findRecipe caller rid s = some r) :
    ∃ r', findRecipe caller rid (patchRecipe caller rid p s).2 = some r' ∧
      r'.title = p.title.getD r.title ∧
      r'.link = p.link.getD r.link ∧
      r'.price = p.price.getD r.price ∧
      r'.description = p.description.getD r.description ∧
      r'.time_minutes = p.time_minutes.getD r.time_minutes ∧
      (p.title = none → r'.title = r.title) ∧
      (p.link = none → r'.link = r.link) ∧
      (p.price = none → r'.price = r.price) ∧
      (p.description = none → r'.description = r.description) ∧
      (p.time_minutes = none → r'.time_minutes = r.time_minutes) ∧
      (p.tags = none → r'.tagIds = r.tagIds) ∧
      (p.ingredients = none → r'.ingredientIds = r.ingredientIds) := by
  obtain ⟨h200, hfind⟩ := patchRecipe_found p hr
  refine ⟨_, hfind, patchOne_title p _ _ r, patchOne_link p _ _ r,
    patchOne_price p _ _ r, patchOne_description p _ _ r, patchOne_time p _ _ r,
    ?_, ?_, ?_, ?_, ?_, ?_, ?_⟩
  · intro h; rw [patchOne_title, h]; rfl
  · intro h; rw [patchOne_link, h]; rfl
  · intro h; rw [patchOne_price, h]; rfl
  · intro h; rw [patchOne_description, h]; rfl
  · intro h; rw [patchOne_time, h]; rfl
  · intro h
    exact patchOne_tagIds_none p _ r (by rw [h]; rfl)
  · intro h
    exact patchOne_ingIds_none p _ r (by rw [h]; rfl)

/-- Patch payload that changes only the title. -/
def titleOnlyPatch (v : String) : RecipePatch :=
  ⟨some v, none, none, none, none, none, none, none⟩

/-- Witness for C4: patching only the title of recipe 7 in the linked
sample store leaves link, price, description, time and both link sets at
their previous values. -/
theorem partial_update_touches_only_present_fields_witness :
    ∃ r', findRecipe 0 7 (patchRecipe 0 7 (titleOnlyPatch "new") linkedStore).2 =
        some r' ∧
      r'.title = (titleOnlyPatch "new").title.getD "t" ∧
      r'.link = (titleOnlyPatch "new").link.getD "l" ∧
      r'.price = (titleOnlyPatch "new").price.getD 2 ∧
      r'.description = (titleOnlyPatch "new").description.getD "d" ∧
      r'.time_minutes = (titleOnlyPatch "new").time_minutes.getD 1 ∧
      ((titleOnlyPatch "new").title = none → r'.title = "t") ∧
      ((titleOnlyPatch "new").link = none → r'.link = "l") ∧
      ((titleOnlyPatch "new").price = none → r'.price = 2) ∧
      ((titleOnlyPatch "new").description = none → r'.description = "d") ∧
      ((titleOnlyPatch "new").time_minutes = none → r'.time_minutes = 1) ∧
      ((titleOnlyPatch "new").tags = none → r'.tagIds = [5]) ∧
      ((titleOnlyPatch "new").ingredients = none → r'.ingredientIds = [6]) := by
  exact partial_update_touches_only_present_fields 0 7 (titleOnlyPatch "new")
    linkedStore ⟨7, 0, "t", 1, 2, "d", "l", [5], [6], none⟩ (by decide)

/-- Claim C5: for every recipe the owner set at creation is immutable:
at creation the owner is always the authenticated caller, never the
client-supplied value; an update payload attempting to change the owner
is silently ignored (status 200, not an error) and the owner is unchanged
afterwards. -/
theorem owner_fixed_at_creation_and_immutable (o : Nat) (f : RecipeFields)
    (tns ins : List String) (caller rid : Nat) (p : RecipePatch) :
    (∀ s : Store, ∃ r ∈ (createRecipe o f tns ins s).2.recipes,
       r.id = (createRecipe o f tns ins s).1 ∧ r.user = o) ∧
    (∀ (s : Store) (r : Recipe), findRecipe caller rid s = some r →
       (patchRecipe caller rid p s).1 = 200 ∧
       ∃ r', findRecipe caller rid (patchRecipe caller rid p s).2 = some r' ∧
         r'.user = r.user) := by
  constructor
  · intro s
    refine ⟨createdRow o f tns ins s, ?_, rfl, rfl⟩
    rw [createRecipe_recipes]
    exact List.mem_append_right _ (List.mem_singleton.2 rfl)
  · intro s r hr
    obtain ⟨h200, hfind⟩ := patchRecipe_found p hr
    exact ⟨h200, _, hfind, patchOne_user p _ _ r⟩

/-- Scalar payload carrying a client-supplied owner value (9). -/
def ownerGrabFields : RecipeFields := ⟨"t", 1, 2, "d", "l", some 9⟩

/-- Patch payload attempting only an owner change (to user 9). -/
def ownerGrabPatch : RecipePatch :=
  ⟨none, none, none, none, none, some 9, none, none⟩

/-- Witness for C5: creating with a payload claiming owner 9 as caller 0
stores owner 0, and patching recipe 7 with an owner-change payload
returns 200 and leaves the owner at 0. -/
theorem owner_fixed_at_creation_and_immutable_witness :
    (∃ r ∈ (createRecipe 0 ownerGrabFields [] [] emptyStore).2.recipes,
       r.id = (createRecipe 0 ownerGrabFields [] [] emptyStore).1 ∧ r.user = 0) ∧
    ((patchRecipe 0 7 ownerGrabPatch linkedStore).1 = 200 ∧
     ∃ r', findRecipe 0 7 (patchRecipe 0 7 ownerGrabPatch linkedStore).2 = some r' ∧
       r'.user = 0) := by
  have h := owner_fixed_at_creation_and_immutable 0 ownerGrabFields [] [] 0 7
    ownerGrabPatch
  exact ⟨h.1 emptyStore,
         h.2 linkedStore ⟨7, 0, "t", 1, 2, "d", "l", [5], [6], none⟩ (by decide)⟩

/-- Claim C6: for every request by an authenticated user against a recipe
owned by a different user (detail read, delete, or mutate), the response
is a not-found-class 404 response — not a forbidden-class one — the store
is unchanged by the failed request, and the targeted recipe still exists. -/
theorem cross_owner_requests_get_404 (caller rid : Nat) (p : RecipePatch)
    (s : Store) (hex : ∃ r ∈ s.recipes, r.id = rid)
    (hother : ∀ r ∈ s.recipes, r.id = rid → r.user ≠ caller) :
    getRecipeDetail caller rid s = (404, none) ∧
    deleteRecipe caller rid s = (404, s) ∧
    patchRecipe caller rid p s = (404, s) ∧
    ∃ r ∈ (deleteRecipe caller rid s).2.recipes, r.id = rid := by
  have hnone : findRecipe caller rid s = none := by
    rw [findRecipe, List.find?_eq_none]
    intro r hrmem
    simp only [recipeMatch, Bool.and_eq_true, beq_iff_eq, not_and]
    intro hid
    exact hother r hrmem hid
  have hdel : deleteRecipe caller rid s = (404, s) := by
    unfold deleteRecipe; rw [hnone]
  refine ⟨?_, hdel, patchRecipe_missing p hnone, ?_⟩
  · unfold getRecipeDetail; rw [hnone]
  · rw [hdel]
    exact hex

/-- Store holding a single recipe (id 7) owned by user 1. -/
def otherOwnerStore : Store :=
  ⟨[], [], [⟨7, 1, "t", 1, 2, "d", "l", [], [], none⟩], [], 8, 8, 8⟩

/-- Patch payload with no field present. -/
def allNonePatch : RecipePatch :=
  ⟨none, none, none, none, none, none, none, none⟩

/-- Witness for C6: user 0 reading, deleting, or patching user 1's
recipe 7 gets 404 and the store keeps the recipe. -/
theorem cross_owner_requests_get_404_witness :
    getRecipeDetail 0 7 otherOwnerStore = (404, none) ∧
    deleteRecipe 0 7 otherOwnerStore = (404, otherOwnerStore) ∧
    patchRecipe 0 7 allNonePatch otherOwnerStore = (404, otherOwnerStore) ∧
    ∃ r ∈ (deleteRecipe 0 7 otherOwnerStore).2.recipes, r.id = 7 := by
  exact cross_owner_requests_get_404 0 7 allNonePatch otherOwnerStore
    (by decide) (by decide)

/-- Claim C7: for every authenticated user and comma-separated set of tag
or ingredient ids supplied as a list filter, the recipe list returned
contains exactly those of the user's recipes linked to at least one of
the given tags/ingredients. -/
theorem list_filter_is_exact (caller : Nat) (qs : String) (s : Store) :
    ((listRecipes (some caller) (some qs) none s).1 = 200 ∧
     ∀ r : Recipe, r ∈ (listRecipes (some caller) (some qs) none s).2 ↔
       r ∈ s.recipes ∧ r.user = caller ∧ ∃ i ∈ r.tagIds, i ∈ paramsToInts qs) ∧
    ((listRecipes (some caller) none (some qs) s).1 = 200 ∧
     ∀ r : Recipe, r ∈ (listRecipes (some caller) none (some qs) s).2 ↔
       r ∈ s.recipes ∧ r.user = caller ∧
         ∃ i ∈ r.ingredientIds, i ∈ paramsToInts qs) := by
  refine ⟨⟨rfl, ?_⟩, ⟨rfl, ?_⟩⟩
  · intro r
    show r ∈ (s.recipes.filter (fun x => x.user == caller)).filter
      (hasAnyTag (paramsToInts qs)) ↔ _
    simp only [List.mem_filter, hasAnyTag, List.any_eq_true, beq_iff_eq,
      List.elem_eq_mem, decide_eq_true_eq, and_assoc]
  · intro r
    show r ∈ (s.recipes.filter (fun x => x.user == caller)).filter
      (hasAnyIngredient (paramsToInts qs)) ↔ _
    simp only [List.mem_filter, hasAnyIngredient, List.any_eq_true, beq_iff_eq,
      List.elem_eq_mem, decide_eq_true_eq, and_assoc]

/-- Claim C8: for every authenticated user the unfiltered recipe list
returns only recipes owned by that user; two stores agreeing on this
user's recipes produce the same response whatever other users' recipes
are; and an unauthenticated request is rejected with 401 and no data. -/
theorem list_limited_to_user (u : Nat) :
    (∀ s : Store, (listRecipes (some u) none none s).1 = 200 ∧
       ∀ r ∈ (listRecipes (some u) none none s).2, r.user = u) ∧
    (∀ s1 s2 : Store,
       s1.recipes.filter (fun r => r.user == u) =
         s2.recipes.filter (fun r => r.user == u) →
       listRecipes (some u) none none s1 = listRecipes (some u) none none s2) ∧
    (∀ (tp ip : Option String) (s : Store), listRecipes none tp ip s = (401, [])) := by
  refine ⟨?_, ?_, ?_⟩
  · intro s
    refine ⟨rfl, ?_⟩
    intro r hr
    have : r ∈ s.recipes.filter (fun x => x.user == u) := hr
    exact beq_iff_eq.1 (List.mem_filter.1 this).2
  · intro s1 s2 h
    show (200, s1.recipes.filter (fun r => r.user == u)) =
      (200, s2.recipes.filter (fun r => r.user == u))
    rw [h]
  · intro tp ip s
    rfl

/-- Two-owner store: user 0 owns recipe 7, user 1 owns recipe 9. -/
def twoOwnerStore : Store :=
  ⟨[], [], [⟨7, 0, "t", 1, 2, "d", "l", [], [], none⟩,
            ⟨9, 1, "u", 1, 2, "d", "l", [], [], none⟩], [], 10, 10, 10⟩

/-- Store holding only user 0's recipe 7. -/
def oneOwnerStore : Store :=
  ⟨[], [], [⟨7, 0, "t", 1, 2, "d", "l", [], [], none⟩], [], 10, 10, 10⟩

/-- Witness for C8: user 0's list over the two-owner store names only
user 0's rows, equals the list over the store with user 1's recipe
removed, and the unauthenticated request gets a bare 401. -/
theorem list_limited_to_user_witness :
    ((listRecipes (some 0) none none twoOwnerStore).1 = 200 ∧
     ∀ r ∈ (listRecipes (some 0) none none twoOwnerStore).2, r.user = 0) ∧
    listRecipes (some 0) none none twoOwnerStore =
      listRecipes (some 0) none none oneOwnerStore ∧
    listRecipes none (some "1") none twoOwnerStore = (401, []) := by
  have h := list_limited_to_user 0
  exact ⟨h.1 twoOwnerStore,
         h.2.1 twoOwnerStore oneOwnerStore (by decide),
         h.2.2 (some "1") none twoOwnerStore⟩

/-- Claim C9: for every request to the image-upload sub-endpoint whose
payload is not a valid image, the response is 400 Bad Request with the
store untouched; a valid image upload succeeds with 200, the stored image
path exists afterwards, and the recipe's image field points at it. -/
theorem image_upload_validation (caller rid : Nat) (s : Store) (r : Recipe)
    (hr : findRecipe caller rid s = some r) :
    (∀ raw, uploadImage caller rid (.invalid raw) s = (400, s)) ∧
    (∀ path, (uploadImage caller rid (.valid path) s).1 = 200 ∧
       path ∈ (uploadImage caller rid (.valid path) s).2.files ∧
       ∃ r', findRecipe caller rid (uploadImage caller rid (.valid path) s).2 =
           some r' ∧ r'.image = some path) := by
  constructor
  · intro raw
    unfold uploadImage; rw [hr]
  · intro path
    refine ⟨?_, ?_, ?_⟩
    · unfold uploadImage; rw [hr]
    · show path ∈ (uploadImage caller rid (.valid path) s).2.files
      unfold uploadImage; rw [hr]
      show path ∈ s.files ++ [path]
      exact List.mem_append_right _ (List.mem_singleton.2 rfl)
    · unfold uploadImage
      rw [hr]
      refine ⟨{ r with image := some path }, ?_, rfl⟩
      show (s.recipes.map _).find? (recipeMatch caller rid) = _
      exact find?_map_ite (recipeMatch caller rid)
        (fun x => { x with image := some path })
        (fun x hx => by simpa [recipeMatch] using hx) hr

/-- Witness for C9: uploading a non-image to recipe 7 of the linked store
is a 400 no-op; uploading image "p.jpg" stores the file and points the
recipe at it. -/
theorem image_upload_validation_witness :
    uploadImage 0 7 (.invalid "x") linkedStore = (400, linkedStore) ∧
    ((uploadImage 0 7 (.valid "p.jpg") linkedStore).1 = 200 ∧
     "p.jpg" ∈ (uploadImage 0 7 (.valid "p.jpg") linkedStore).2.files ∧
     ∃ r', findRecipe 0 7 (uploadImage 0 7 (.valid "p.jpg") linkedStore).2 =
         some r' ∧ r'.image = some "p.jpg") := by
  have h := image_upload_validation 0 7 linkedStore
    ⟨7, 0, "t", 1, 2, "d", "l", [5], [6], none⟩ (by decide)
  exact ⟨h.1 "x", h.2 "p.jpg"⟩

/-- Claim C10: for every user-creation request whose password is shorter
than 5 characters, the request fails with 400 and no user row is created
(the store is unchanged); and no user API response body — creation or
profile read — ever carries the write-only password field. -/
theorem short_password_rejected_and_password_write_only (p : UserPayload)
    (s : UserStore) :
    (p.password.length < 5 → createUser p s = ((400, []), s)) ∧
    "password" ∉ (createUser p s).1.2.map Prod.fst ∧
    (∀ u : UserRow, "password" ∉ (userToRepr u).map Prod.fst ∧
       "password" ∉ (meRead u).2.map Prod.fst) := by
  refine ⟨?_, ?_, ?_⟩
  · intro h
    unfold createUser
    rw [if_pos h]
  · unfold createUser
    by_cases h1 : p.password.length < 5
    · rw [if_pos h1]; simp
    · rw [if_neg h1]
      by_cases h2 : s.users.any (fun u => u.email == p.email)
      · rw [if_pos h2]; simp
      · rw [if_neg h2]
        show "password" ∉ ["email", "name"]
        decide
  · intro u
    constructor
    · show "password" ∉ ["email", "name"]
      decide
    · show "password" ∉ ["email", "name"]
      decide

/-- Registration payload with the too-short password "pw". -/
def shortPwPayload : UserPayload := ⟨"test@example.com", "pw", "Test Name"⟩

/-- Empty user store. -/
def emptyUserStore : UserStore := ⟨[], 0⟩

/-- Witness for C10: posting the "pw" payload to an empty store returns
400 and leaves the store empty; no response body carries a password key. -/
theorem short_password_rejected_witness :
    createUser shortPwPayload emptyUserStore = ((400, []), emptyUserStore) ∧
    "password" ∉ (createUser shortPwPayload emptyUserStore).1.2.map Prod.fst ∧
    ("password" ∉ (userToRepr ⟨0, "e", "secret", "N"⟩).map Prod.fst ∧
     "password" ∉ (meRead ⟨0, "e", "secret", "N"⟩).2.map Prod.fst) := by
  have h := short_password_rejected_and_password_write_only shortPwPayload
    emptyUserStore
  exact ⟨h.1 (by decide), h.2.1, h.2.2 ⟨0, "e", "secret", "N"⟩⟩

end RecipeApp
